import Mathlib

/-!
Shallow embedding of the appointment-booking backend (bookingService.ts,
googleCalendar.ts, llmAgent.ts, voiceWebhook.ts) and proofs about it.

Modelling conventions:
* instants are milliseconds since the Unix epoch, as `Int`;
* the `Intl.DateTimeFormat` decomposition of an instant into business-local
  weekday and time-of-day is an abstract oracle `Env.parts` (full IANA rules
  are outside the embedding; concrete instantiations fix a timezone);
* every external collaborator (Google Calendar, Prisma persistence, the
  OpenAI model, `Date` parsing) is an oracle field of `Env`, and each
  modelled operation returns its result together with the list of external
  calendar/persistence calls it made, in order;
* JavaScript exceptions are modelled with `Except String`.
-/

namespace Receptionist

/-- Milliseconds since the Unix epoch (`Date.getTime()`). -/
abbrev Instant := Int

/-- `{hour, minute}` as produced by `getBusinessHours` in config/env.ts. -/
structure TimeOfDay where
  hour : Int
  minute : Int
deriving DecidableEq

/-- The business-hours configuration returned by `getBusinessHours`:
open/close times of day and the list of open weekdays (1 = Monday .. 7 = Sunday). -/
structure BusinessHours where
  startT : TimeOfDay
  endT : TimeOfDay
  days : List Int
deriving DecidableEq

/-- Result of `getDatePartsInBusinessTimezone`: weekday number and
minutes-since-midnight of an instant in the business timezone. -/
structure DateParts where
  dayNumber : Int
  timeInMinutes : Int
deriving DecidableEq

/-- The result record of `checkAvailability` in bookingService.ts. -/
structure AvCheck where
  available : Bool
  reason : Option String
deriving DecidableEq

/-- External calendar-collaborator and persistence-collaborator calls, recorded
in the order they are made.  `checkFreeBusy` carries the returned free flag
(`none` when the underlying query threw). -/
inductive Event
  | checkFreeBusy (s e : Instant) (result : Option Bool)
  | listFreeBusy (s e : Instant)
  | createEvent (s e : Instant)
  | createAppointment (s e : Instant)
  | createCallLog
  | updateCallLog
deriving DecidableEq

/-- Parsed tool arguments (the fields `executeTool` reads off `JSON.parse`'s
result; a missing JSON field is `none`, modelling `undefined`). -/
structure ToolArgs where
  startTime : Option String
  endTime : Option String
  name : Option String
  phone : Option String
  email : Option String
deriving DecidableEq

/-- A tool invocation produced by the model (llmAgent.ts `ToolCall`):
id, function name and the raw argument text. -/
structure ToolCall where
  id : String
  name : String
  argumentsText : String
deriving DecidableEq

/-- One chat-completion response: optional assistant text and tool calls. -/
structure LlmResponse where
  content : Option String
  toolCalls : List ToolCall
deriving DecidableEq

/-- The process environment and all external collaborators, as oracles.
`parts` abstracts `Intl.DateTimeFormat(...).formatToParts`; `freeBusy` is
`checkSlotAvailability` (true = slot free); `busyList` is the freebusy query
of `findAvailableSlots`; `createEv` is `createCalendarEvent`; `persist` is
`prisma.appointment.create`; `dateParse` is `new Date(string)` (`none` models
an invalid date); `parseArgs` is `JSON.parse` on tool-argument text; `llm`
gives the model response of each agent-loop iteration; `callLogParseOk`
says whether `parseWebhookPayload` returned a non-null record. -/
structure Env where
  hours : BusinessHours
  parts : Instant → DateParts
  durationMinutes : Int
  freeBusy : Instant → Instant → Except String Bool
  busyList : Instant → Instant → Except String (List (Instant × Instant))
  createEv : Instant → Instant → Except String String
  persist : Instant → Instant → Except String String
  now : Instant
  dateParse : Option String → Option Instant
  parseArgs : String → Except String ToolArgs
  fmtDate : Instant → String
  llm : Nat → Except String LlmResponse
  callLogParseOk : Bool
  callLogId : String

/-- bookingService.ts `isWithinBusinessHours`. -/
def isWithinBusinessHours (env : Env) (date : Instant) (allowEndBoundary : Bool) : Bool :=
  let p := env.parts date
  if ¬ env.hours.days.contains p.dayNumber then
    false
  else
    let startInMinutes := env.hours.startT.hour * 60 + env.hours.startT.minute
    let endInMinutes := env.hours.endT.hour * 60 + env.hours.endT.minute
    if allowEndBoundary then
      decide (startInMinutes ≤ p.timeInMinutes) && decide (p.timeInMinutes ≤ endInMinutes)
    else
      decide (startInMinutes ≤ p.timeInMinutes) && decide (p.timeInMinutes < endInMinutes)

/-- bookingService.ts `normalizeAppointmentTime` (source default duration 30). -/
def normalizeAppointmentTime (env : Env) (start : Instant) (durationMinutes : Int) :
    Option Instant :=
  let e := start + durationMinutes * 60 * 1000
  if isWithinBusinessHours env start false && isWithinBusinessHours env e true then
    some start
  else
    none

/-- bookingService.ts `computeEndTime`; `durationMinutes || env default`
(`0` is falsy in JavaScript, hence the `d = 0` test). -/
def computeEndTime (env : Env) (start : Instant) (durationMinutes : Option Int) : Instant :=
  let duration :=
    match durationMinutes with
    | some d => if d = 0 then env.durationMinutes else d
    | none => env.durationMinutes
  start + duration * 60 * 1000

/-- bookingService.ts `checkAvailability`: business-hours validation first,
then the freebusy query. -/
def checkAvailability (env : Env) (start e : Instant) :
    Except String AvCheck × List Event :=
  if ¬ isWithinBusinessHours env start false then
    (.ok ⟨false, some "Outside business hours"⟩, [])
  else if ¬ isWithinBusinessHours env e true then
    (.ok ⟨false, some "Appointment extends beyond business hours"⟩, [])
  else
    match env.freeBusy start e with
    | .error m => (.error m, [.checkFreeBusy start e none])
    | .ok isAvailable =>
        (.ok ⟨isAvailable, if isAvailable then none else some "Time slot is already booked"⟩,
         [.checkFreeBusy start e (some isAvailable)])

/-- googleCalendar.ts `findAvailableSlots`: the three-case overlap test of a
candidate slot against one busy period, `some`-ed over the busy list. -/
def slotOverlapsBusy (currentTime slotEnd : Instant) (busy : List (Instant × Instant)) : Bool :=
  busy.any fun b =>
    (decide (b.1 ≤ currentTime) && decide (currentTime < b.2)) ||
    (decide (b.1 < slotEnd) && decide (slotEnd ≤ b.2)) ||
    (decide (currentTime ≤ b.1) && decide (b.2 ≤ slotEnd))

/-- The scan loop of googleCalendar.ts `findAvailableSlots`: advance in
`slotDuration` steps, collect non-overlapping candidates, stop when the range
is exhausted or `maxResults` candidates are found.  `found` counts candidates
collected so far; `fuel` is a recursion bound large enough that the loop
condition, not the fuel, terminates the scan (the source `while` loop
terminates because `slotDuration` is positive). -/
def findSlotsLoop (busy : List (Instant × Instant)) (slotDuration endTime : Int)
    (maxResults : Nat) : Nat → Instant → Nat → List Instant
  | 0, _, _ => []
  | fuel + 1, currentTime, found =>
    if currentTime + slotDuration ≤ endTime ∧ found < maxResults then
      if slotOverlapsBusy currentTime (currentTime + slotDuration) busy then
        findSlotsLoop busy slotDuration endTime maxResults fuel (currentTime + slotDuration) found
      else
        currentTime ::
          findSlotsLoop busy slotDuration endTime maxResults fuel (currentTime + slotDuration)
            (found + 1)
    else []

/-- googleCalendar.ts `findAvailableSlots`: one freebusy query for the range,
then the local scan. -/
def findAvailableSlots (env : Env) (startDate endDate : Instant)
    (durationMinutes : Int) (maxResults : Nat) :
    Except String (List Instant) × List Event :=
  match env.busyList startDate endDate with
  | .error _ => (.error "Failed to find available slots", [.listFreeBusy startDate endDate])
  | .ok busy =>
      let slotDuration := durationMinutes * 60 * 1000
      let fuel := (endDate - startDate).toNat / slotDuration.toNat + 1
      (.ok (findSlotsLoop busy slotDuration endDate maxResults fuel startDate 0),
       [.listFreeBusy startDate endDate])

/-- The per-candidate test of the filter stage of `findNextAvailableSlots`:
`normalizeAppointmentTime` succeeds and the normalized start is within
business hours. -/
def passesFilter (env : Env) (slot : Instant) : Bool :=
  match normalizeAppointmentTime env slot 30 with
  | some normalized => isWithinBusinessHours env normalized false
  | none => false

/-- The filter loop of bookingService.ts `findNextAvailableSlots`: walk the
raw slots, keep those passing `normalizeAppointmentTime` plus the
business-hours re-check, stop once `rem` slots are kept. -/
def filterValidSlots (env : Env) : List Instant → Nat → List Instant
  | [], _ => []
  | _ :: _, 0 => []
  | slot :: rest, rem + 1 =>
    match normalizeAppointmentTime env slot 30 with
    | some normalized =>
        if isWithinBusinessHours env normalized false then
          normalized :: filterValidSlots env rest rem
        else
          filterValidSlots env rest (rem + 1)
    | none => filterValidSlots env rest (rem + 1)

/-- bookingService.ts `findNextAvailableSlots`.  `searchEnd` is
`setDate(getDate() + lookAheadDays)`, modelled as adding fixed-length days;
the source also computes a `requestedEnd` it never uses. -/
def findNextAvailableSlots (env : Env) (requestedStart : Instant) (count : Nat)
    (lookAheadDays : Int) (candidateMultiplier : Nat) :
    Except String (List Instant) × List Event :=
  let _requestedEnd := computeEndTime env requestedStart none
  let searchEnd := requestedStart + lookAheadDays * 86400000
  match findAvailableSlots env requestedStart searchEnd env.durationMinutes
      (count * candidateMultiplier) with
  | (.error m, tr) => (.error m, tr)
  | (.ok slots, tr) => (.ok (filterValidSlots env slots count), tr)

/-- bookingService.ts `BookAppointmentParams`. -/
structure BookParams where
  start : Instant
  endT : Instant
  name : String
  phone : Option String
  email : Option String
  callLogId : Option String
  businessId : Option String

/-- bookingService.ts `BookedAppointment`. -/
structure BookedAppointment where
  id : String
  googleEventId : String
  start : Instant
  endT : Instant
deriving DecidableEq

/-- bookingService.ts `bookAppointment`: validate availability, create the
calendar event, persist the appointment; any failure throws. -/
def bookAppointment (env : Env) (p : BookParams) :
    Except String BookedAppointment × List Event :=
  match checkAvailability env p.start p.endT with
  | (.error m, tr) => (.error m, tr)
  | (.ok availability, tr) =>
    if ¬ availability.available then
      (.error ("Cannot book appointment: " ++ availability.reason.getD "undefined"), tr)
    else
      match env.createEv p.start p.endT with
      | .error m => (.error m, tr ++ [.createEvent p.start p.endT])
      | .ok eventId =>
          match env.persist p.start p.endT with
          | .error m =>
              (.error m, tr ++ [.createEvent p.start p.endT, .createAppointment p.start p.endT])
          | .ok apptId =>
              (.ok ⟨apptId, eventId, p.start, p.endT⟩,
               tr ++ [.createEvent p.start p.endT, .createAppointment p.start p.endT])

/-- JavaScript `a <= b` on two `Date` values: `false` whenever either date is
invalid (`NaN` comparisons are false). -/
def jsLe (a b : Option Instant) : Bool :=
  match a, b with
  | some x, some y => decide (x ≤ y)
  | _, _ => false

/-- JavaScript `a < b` on two `Date` values: `false` whenever either date is
invalid. -/
def jsLt (a b : Option Instant) : Bool :=
  match a, b with
  | some x, some y => decide (x < y)
  | _, _ => false

/-- llmAgent.ts `executeTool`.  `JSON.parse` on the argument text runs BEFORE
the `try` block, so a parse failure propagates as `.error`; everything inside
the `try` is converted to an error-text `.ok` result.  An invalid `Date`
reaching `Intl.DateTimeFormat` raises a RangeError ("Invalid time value")
inside the `try`, before any external call. -/
def executeTool (env : Env) (toolCall : ToolCall) : Except String (String × List Event) :=
  match env.parseArgs toolCall.argumentsText with
  | .error m => .error m
  | .ok args =>
    if toolCall.name = "checkAvailability" then
      match env.dateParse args.startTime, env.dateParse args.endTime with
      | some start, some e =>
          match checkAvailability env start e with
          | (.ok result, tr) =>
              if result.available then
                .ok ("The time slot from " ++ env.fmtDate start ++ " to " ++ env.fmtDate e ++
                     " is available.", tr)
              else
                .ok ("The time slot from " ++ env.fmtDate start ++ " to " ++ env.fmtDate e ++
                     " is not available. Reason: " ++ result.reason.getD "undefined", tr)
          | (.error m, tr) => .ok ("Error executing checkAvailability: " ++ m, tr)
      | _, _ => .ok ("Error executing checkAvailability: Invalid time value", [])
    else if toolCall.name = "bookAppointment" then
      let start := env.dateParse args.startTime
      let e := env.dateParse args.endTime
      if jsLe e start then
        .ok ("Error: End time must be after start time.", [])
      else if jsLt start (some env.now) then
        .ok ("Error: Cannot book appointments in the past.", [])
      else
        match start, e with
        | some s, some en =>
            match bookAppointment env ⟨s, en, args.name.getD "undefined",
                args.phone, args.email, none, none⟩ with
            | (.ok booked, tr) =>
                .ok ("The appointment has been booked for " ++ env.fmtDate s ++ " to " ++
                     env.fmtDate en ++ ". Event ID: " ++ booked.googleEventId, tr)
            | (.error m, tr) => .ok ("Error executing bookAppointment: " ++ m, tr)
        | _, _ => .ok ("Error executing bookAppointment: Invalid time value", [])
    else
      .ok ("Unknown tool: " ++ toolCall.name, [])

/-- `processAppointmentRequest` outcome status. -/
inductive AgentStatus
  | booked
  | suggested_alternatives
  | failed
deriving DecidableEq

/-- llmAgent.ts `ProcessAppointmentResult`. -/
structure ProcessResult where
  message : String
  status : AgentStatus
  bookedAppointmentId : Option String
  suggestedTimes : Option (List Instant)
deriving DecidableEq

/-- `String.toLowerCase` (ASCII model), mapping over the character list. -/
def lowerStr (s : String) : String := ⟨s.data.map Char.toLower⟩

/-- `needle` occurs at the start of `hay` (character lists). -/
def startsWithChars : List Char → List Char → Bool
  | [], _ => true
  | _ :: _, [] => false
  | a :: as, b :: bs => a = b && startsWithChars as bs

/-- `needle` occurs somewhere in `hay` (character lists); JavaScript
`String.prototype.includes`. -/
def containsSubChars (needle : List Char) : List Char → Bool
  | [] => needle.isEmpty
  | b :: bs => startsWithChars needle (b :: bs) || containsSubChars needle bs

/-- `hay.includes(needle)`. -/
def containsSub (hay needle : String) : Bool :=
  containsSubChars needle.data hay.data

/-- The keyword classification of the final assistant text in
llmAgent.ts `processAppointmentRequest` (lines 157-163). -/
def classifyContent (content : String) : AgentStatus :=
  let lc := lowerStr content
  if containsSub lc "appointment has been booked" then .booked
  else if containsSub lc "unavailable" || containsSub lc "these times are" then
    .suggested_alternatives
  else .failed

/-- The tool-execution `for` loop of one agent iteration: execute each tool
call in order, accumulating external calls; an uncaught exception (argument
parse failure) propagates after the preceding calls have already run. -/
def execTools (env : Env) : List ToolCall → Except String Unit × List Event
  | [] => (.ok (), [])
  | tc :: rest =>
    match executeTool env tc with
    | .error m => (.error m, [])
    | .ok (_, tr) =>
        match execTools env rest with
        | (r, tr2) => (r, tr ++ tr2)

/-- The bounded agent loop of llmAgent.ts `processAppointmentRequest`:
`i` is the iteration index (feeding the model oracle), the fuel starts at
`maxIterations = 10`.  When fuel runs out the max-iterations failure result
is returned; a response without tool calls terminates the loop with the
keyword-classified status. -/
def agentSteps (env : Env) (i : Nat) : Nat → Except String ProcessResult × List Event
  | 0 => (.ok ⟨"Unable to complete appointment booking. Please try again.", .failed, none, none⟩, [])
  | fuel + 1 =>
    match env.llm i with
    | .error m => (.error m, [])
    | .ok resp =>
      match resp.toolCalls with
      | [] =>
          let content := resp.content.getD "Appointment processing completed."
          (.ok ⟨content, classifyContent content, none, none⟩, [])
      | _ :: _ =>
          match execTools env resp.toolCalls with
          | (.error m, tr) => (.error m, tr)
          | (.ok _, tr) =>
              match agentSteps env (i + 1) fuel with
              | (r, tr2) => (r, tr ++ tr2)

/-- llmAgent.ts `ProcessAppointmentRequestParams`. -/
structure ProcessParams where
  name : String
  phone : Option String
  email : Option String
  requestedDateTime : Option String
  callLogId : Option String
  businessId : Option String
  businessContextPrompt : Option String

/-- llmAgent.ts `processAppointmentRequest`: the conversation transcript is
absorbed into the model oracle `env.llm`; the loop runs at most 10 turns. -/
def processAppointmentRequest (env : Env) (_p : ProcessParams) :
    Except String ProcessResult × List Event :=
  agentSteps env 0 10

/-- The alternatives tail of `processAppointmentRequestWithAlternatives`
(llmAgent.ts lines 242-265): search for 3 slots over 60 days with candidate
multiplier 10; a search exception is caught by the outer `try` and falls
through to the LLM agent. -/
def alternativesPath (env : Env) (p : ProcessParams) (requestedStart : Instant) :
    Except String ProcessResult × List Event :=
  match findNextAvailableSlots env requestedStart 3 60 10 with
  | (.error _, tr) =>
      match processAppointmentRequest env p with
      | (r, tr2) => (r, tr ++ tr2)
  | (.ok alternatives, tr) =>
      if alternatives.length > 0 then
        (.ok ⟨"The requested time is unavailable, these times are " ++
              String.intercalate ", " (alternatives.map env.fmtDate),
              .suggested_alternatives, none, some alternatives⟩, tr)
      else
        (.ok ⟨"The requested time is unavailable, and no alternative times were found in the next 60 days.",
              .suggested_alternatives, none, some []⟩, tr)

/-- llmAgent.ts `processAppointmentRequestWithAlternatives`: fast path when a
parseable date/time is present (check, then book directly, falling back to
the alternatives search, any exception falling back to the LLM agent);
otherwise the LLM agent. -/
def processAppointmentRequestWithAlternatives (env : Env) (p : ProcessParams) :
    Except String ProcessResult × List Event :=
  match p.requestedDateTime with
  | none => processAppointmentRequest env p
  | some dt =>
    if dt = "" then processAppointmentRequest env p else
    match env.dateParse (some dt) with
    | none => processAppointmentRequest env p
    | some requestedStart =>
      let requestedEnd := requestedStart + 30 * 60 * 1000
      match checkAvailability env requestedStart requestedEnd with
      | (.error _, tr) =>
          match processAppointmentRequest env p with
          | (r, tr2) => (r, tr ++ tr2)
      | (.ok availability, tr) =>
        if availability.available then
          match bookAppointment env ⟨requestedStart, requestedEnd, p.name, p.phone, p.email,
              p.callLogId, p.businessId⟩ with
          | (.ok booked, tr2) =>
              (.ok ⟨"The appointment has been booked", .booked, some booked.id,
                    some [requestedStart]⟩, tr ++ tr2)
          | (.error _, tr2) =>
              match alternativesPath env p requestedStart with
              | (r, tr3) => (r, tr ++ tr2 ++ tr3)
        else
          match alternativesPath env p requestedStart with
          | (r, tr3) => (r, tr ++ tr3)

/-- The appointment details extracted from the webhook payload
(voiceWebhook.ts `extractAppointmentDetails`), plus the routed business. -/
structure Details where
  toolCallId : String
  name : String
  phone : Option String
  email : Option String
  requestedDateTime : Option String
  businessId : Option String
  businessContextPrompt : Option String

/-- The HTTP response produced by the webhook handler: a Vapi-format result
(`{results: [{toolCallId, result}]}`) with its status code, or a bad-request
error body. -/
inductive WebhookResult
  | response (status : Nat) (toolCallId : String) (result : String)
  | badRequest (status : Nat) (error : String)
deriving DecidableEq

/-- The past-date re-confirmation message of voiceWebhook.ts line 242. -/
def pastDateMessage : String :=
  "The date provided appears to be in the past. Please ask the customer to confirm the year and the exact date."

/-- voiceWebhook.ts `handleVoiceWebhook` from the point where the payload has
been parsed and the appointment details extracted (signature verification and
business routing, which make no calendar-collaborator or
persistence-collaborator calls, are upstream of the modelled region):
name validation, then the past-date guard, then call-log creation, the
booking flow, and the call-log update. -/
def handleVoiceWebhook (env : Env) (d : Details) : WebhookResult × List Event :=
  if d.name = "" then
    (.badRequest 400 "Name is required", [])
  else
    let pastGuard :=
      match d.requestedDateTime with
      | some s =>
          if s = "" then false else
          match env.dateParse (some s) with
          | some t => decide (t < env.now)
          | none => false
      | none => false
    if pastGuard then
      (.response 200 d.toolCallId pastDateMessage, [])
    else
      let callLogId := if env.callLogParseOk then some env.callLogId else none
      let tr0 : List Event := if env.callLogParseOk then [.createCallLog] else []
      match processAppointmentRequestWithAlternatives env
          ⟨d.name, d.phone, d.email, d.requestedDateTime, callLogId, d.businessId,
           d.businessContextPrompt⟩ with
      | (.ok result, tr1) =>
          let tr2 : List Event := match callLogId with | some _ => [.updateCallLog] | none => []
          (.response 200 d.toolCallId result.message, tr0 ++ tr1 ++ tr2)
      | (.error _, tr1) =>
          (.response 500 d.toolCallId
            "An error occurred while processing your appointment request. Please try again later.",
           tr0 ++ tr1)

/-- A JSON value, modelling the inbound webhook payload (`req.body`).
An absent object key models JavaScript `undefined`. -/
inductive Json
  | nul
  | bool (b : Bool)
  | num (n : Int)
  | str (s : String)
  | arr (items : List Json)
  | obj (fields : List (String × Json))

/-- Look up a key in an object's field list (first occurrence). -/
def objGet (fields : List (String × Json)) (key : String) : Option Json :=
  match fields with
  | [] => none
  | (k, v) :: rest => if k = key then some v else objGet rest key

/-- `x?.key`: `none` when `x` is not an object or lacks the key. -/
def jsonGet (j : Json) (key : String) : Option Json :=
  match j with
  | .obj fields => objGet fields key
  | _ => none

/-- Optional-chained path lookup `x?.a?.b?...`. -/
def getPath (j : Json) : List String → Option Json
  | [] => some j
  | k :: rest =>
    match jsonGet j k with
    | some v => getPath v rest
    | none => none

/-- JavaScript truthiness of a possibly-`undefined` value. -/
def jsTruthy : Option Json → Bool
  | none => false
  | some .nul => false
  | some (.bool b) => b
  | some (.num n) => decide (n ≠ 0)
  | some (.str s) => decide (s ≠ "")
  | some (.arr _) => true
  | some (.obj _) => true

/-- `typeof x === "object"` (true for objects, arrays and `null`). -/
def isJsObject : Json → Bool
  | .obj _ => true
  | .arr _ => true
  | .nul => true
  | _ => false

/-- `x ?? y` triggers on `undefined` or `null`. -/
def jsNullish : Option Json → Bool
  | none => true
  | some .nul => true
  | _ => false

/-- The record returned by voiceWebhook.ts `findToolCallDeep`:
`{id?, name, arguments}`. -/
structure FoundToolCall where
  id : Option Json
  name : String
  argumentsJ : Json

theorem objGet_sizeOf_lt {fields : List (String × Json)} {key : String} {v : Json}
    (h : objGet fields key = some v) : sizeOf v < sizeOf fields := by
  induction fields with
  | nil => simp [objGet] at h
  | cons head tail ih =>
    rw [objGet] at h
    split at h
    · cases h
      cases head with
      | mk k w =>
        simp
        omega
    · have := ih h
      simp
      omega

mutual

/-- voiceWebhook.ts `findToolCallDeep`: recursive depth-first scan for the
first object with shape `{name: string, arguments: any}`; a `toolCall` key is
tried before generic traversal; arrays are scanned element-wise. -/
def findToolCallDeep : Json → Option FoundToolCall
  | .arr items => findInList items
  | .obj fields =>
    match objGet fields "name", objGet fields "arguments" with
    | some (.str n), some a => some ⟨objGet fields "id", n, a⟩
    | _, _ =>
      match h : objGet fields "toolCall" with
      | some tc =>
          if jsTruthy (some tc) && isJsObject tc then
            match findToolCallDeep tc with
            | some r => some r
            | none => findInFields fields
          else findInFields fields
      | none => findInFields fields
  | _ => none
termination_by j => sizeOf j
decreasing_by
  all_goals simp_wf
  all_goals first
    | omega
    | (have hlt := objGet_sizeOf_lt h; omega)

/-- Element-wise scan of an array, returning the first hit. -/
def findInList : List Json → Option FoundToolCall
  | [] => none
  | j :: rest =>
    match findToolCallDeep j with
    | some r => some r
    | none => findInList rest
termination_by l => sizeOf l

/-- Key-order scan of an object's values, returning the first hit. -/
def findInFields : List (String × Json) → Option FoundToolCall
  | [] => none
  | (_, v) :: rest =>
    match findToolCallDeep v with
    | some r => some r
    | none => findInFields rest
termination_by fs => sizeOf fs

end

mutual

/-- `JSON.stringify` (string escaping simplified to plain quoting; the
theorems below only exercise string-typed arguments, which are never
stringified). -/
def jsonStringify : Json → String
  | .nul => "null"
  | .bool true => "true"
  | .bool false => "false"
  | .num n => toString n
  | .str s => "\"" ++ s ++ "\""
  | .arr items => "[" ++ stringifyList items ++ "]"
  | .obj fields => "\x7b" ++ stringifyFields fields ++ "\x7d"
termination_by j => sizeOf j

def stringifyList : List Json → String
  | [] => ""
  | [j] => jsonStringify j
  | j :: rest => jsonStringify j ++ "," ++ stringifyList rest
termination_by l => sizeOf l

def stringifyFields : List (String × Json) → String
  | [] => ""
  | [(k, v)] => "\"" ++ k ++ "\":" ++ jsonStringify v
  | (k, v) :: rest => "\"" ++ k ++ "\":" ++ jsonStringify v ++ "," ++ stringifyFields rest
termination_by fs => sizeOf fs

end

/-- The canonical normalized payload
`{body: {message: {toolCalls: [{id, function: {name, arguments}}]}}}`. -/
def canonicalPayload (idJ nameJ : Json) (argsText : String) : Json :=
  .obj [("body", .obj [("message", .obj [("toolCalls", .arr [
    .obj [("id", idJ),
          ("function", .obj [("name", nameJ), ("arguments", .str argsText)])]])])])]

/-- voiceWebhook.ts `parseRequest`: priority-ordered recognition of the four
documented wrapper shapes.  The source represents an absent `tc.id`/`tc.name`
as a key holding `undefined`; the model conflates that with `null`. -/
def parseRequest (raw : Json) : Json :=
  if jsTruthy (getPath raw ["body", "message", "toolCalls"]) then
    raw
  else if jsTruthy (getPath raw ["message", "toolCalls"]) then
    .obj [("body", raw)]
  else if jsTruthy (jsonGet raw "toolCall") then
    let tc := (jsonGet raw "toolCall").getD .nul
    let stringifiedArgs :=
      match jsonGet tc "arguments" with
      | some (.str s) => s
      | some .nul => jsonStringify (.obj [])
      | some a => jsonStringify a
      | none => jsonStringify (.obj [])
    canonicalPayload ((jsonGet tc "id").getD .nul) ((jsonGet tc "name").getD .nul) stringifiedArgs
  else
    match findToolCallDeep raw with
    | some candidate =>
        let stringifiedArgs :=
          match candidate.argumentsJ with
          | .str s => s
          | .nul => jsonStringify (.obj [])
          | a => jsonStringify a
        let idJ :=
          match candidate.id with
          | some i => if jsNullish (some i) then .str "tool_call_auto" else i
          | none => .str "tool_call_auto"
        canonicalPayload idJ (.str candidate.name) stringifiedArgs
    | none => .obj [("body", raw)]

/-- Wrapper shape 1: `{body: {message: {toolCalls: [...]}}}`. -/
def shapeWrappedBody (id fname args : String) : Json :=
  .obj [("body", .obj [("message", .obj [("toolCalls", .arr [
    .obj [("id", .str id),
          ("function", .obj [("name", .str fname), ("arguments", .str args)])]])])])]

/-- Wrapper shape 2: `{message: {toolCalls: [...]}}` at the root. -/
def shapeMessageRoot (id fname args : String) : Json :=
  .obj [("message", .obj [("toolCalls", .arr [
    .obj [("id", .str id),
          ("function", .obj [("name", .str fname), ("arguments", .str args)])]])])]

/-- Wrapper shape 3: a single top-level `toolCall` object. -/
def shapeFlatToolCall (id fname args : String) : Json :=
  .obj [("toolCall", .obj [("id", .str id), ("name", .str fname), ("arguments", .str args)])]

/-- Wrapper shape 4: a tool call embedded in an unknown wrapper, reached only
by the deep scan. -/
def shapeDeepWrapped (id fname args : String) : Json :=
  .obj [("data", .obj [("toolCall",
    .obj [("id", .str id), ("name", .str fname), ("arguments", .str args)])])]

/-! ### Concrete instantiations used by witnesses and counterexamples -/

/-- The `Intl` decomposition for the `UTC` timezone, valid for non-negative
instants (1 = Monday .. 7 = Sunday; epoch day 0, 1970-01-01, was a Thursday). -/
def utcParts (t : Instant) : DateParts :=
  ⟨(t / 86400000 + 3) % 7 + 1, t / 60000 % 1440⟩

/-- Business hours 09:00-18:00, Monday-Friday (the source defaults). -/
def demoHours : BusinessHours := ⟨⟨9, 0⟩, ⟨18, 0⟩, [1, 2, 3, 4, 5]⟩

/-- A concrete environment: UTC decomposition, default hours, a free
calendar, succeeding collaborators. -/
def demoEnv : Env where
  hours := demoHours
  parts := utcParts
  durationMinutes := 30
  freeBusy := fun _ _ => .ok true
  busyList := fun _ _ => .ok []
  createEv := fun _ _ => .ok "event-123"
  persist := fun _ _ => .ok "appt-123"
  now := 1700000000
  dateParse := fun s =>
    match s with
    | some "2020-01-01T10:00:00Z" => some 1000
    | some "1970-01-19T10:00:00Z" => some 1591200000
    | _ => none
  parseArgs := fun s =>
    if s = "\x7b\x7d" then .ok ⟨none, none, none, none, none⟩ else .error "Unexpected token"
  fmtDate := fun t => toString t
  llm := fun i =>
    if i = 0 then .ok ⟨some "Your slot is booked.", []⟩ else .error "no response"
  callLogParseOk := true
  callLogId := "log-123"

/-- Opening time in minutes since local midnight, as computed inline by
`isWithinBusinessHours`. -/
def openingMinutes (env : Env) : Int :=
  env.hours.startT.hour * 60 + env.hours.startT.minute

/-- Closing time in minutes since local midnight. -/
def closingMinutes (env : Env) : Int :=
  env.hours.endT.hour * 60 + env.hours.endT.minute

/-! ### Business-hours helper lemmas -/

theorem isWithin_eq (env : Env) (d : Instant) (b : Bool) :
    isWithinBusinessHours env d b =
      (env.hours.days.contains (env.parts d).dayNumber &&
       (decide (openingMinutes env ≤ (env.parts d).timeInMinutes) &&
        (if b then decide ((env.parts d).timeInMinutes ≤ closingMinutes env)
         else decide ((env.parts d).timeInMinutes < closingMinutes env)))) := by
  unfold isWithinBusinessHours openingMinutes closingMinutes
  cases b <;>
    by_cases hc : env.hours.days.contains (env.parts d).dayNumber = true <;>
      simp [hc]

theorem isWithin_false_of_day (env : Env) (d : Instant) (b : Bool)
    (h : env.hours.days.contains (env.parts d).dayNumber = false) :
    isWithinBusinessHours env d b = false := by
  rw [isWithin_eq, h]
  rfl

theorem isWithin_false_of_early (env : Env) (d : Instant) (b : Bool)
    (h : (env.parts d).timeInMinutes < openingMinutes env) :
    isWithinBusinessHours env d b = false := by
  rw [isWithin_eq]
  have h1 : ¬ (openingMinutes env ≤ (env.parts d).timeInMinutes) := by omega
  simp [h1]

theorem isWithin_false_of_late (env : Env) (d : Instant)
    (h : closingMinutes env ≤ (env.parts d).timeInMinutes) :
    isWithinBusinessHours env d false = false := by
  rw [isWithin_eq]
  have h1 : ¬ ((env.parts d).timeInMinutes < closingMinutes env) := by omega
  simp [h1]

theorem isWithin_false_of_past_boundary (env : Env) (d : Instant)
    (h : closingMinutes env < (env.parts d).timeInMinutes) :
    isWithinBusinessHours env d true = false := by
  rw [isWithin_eq]
  have h1 : ¬ ((env.parts d).timeInMinutes ≤ closingMinutes env) := by omega
  simp [h1]

theorem isWithin_true_strict (env : Env) (d : Instant)
    (hday : env.hours.days.contains (env.parts d).dayNumber = true)
    (h1 : openingMinutes env ≤ (env.parts d).timeInMinutes)
    (h2 : (env.parts d).timeInMinutes < closingMinutes env) :
    isWithinBusinessHours env d false = true := by
  rw [isWithin_eq, hday]
  simp
  omega

theorem isWithin_true_boundary (env : Env) (d : Instant)
    (hday : env.hours.days.contains (env.parts d).dayNumber = true)
    (h1 : openingMinutes env ≤ (env.parts d).timeInMinutes)
    (h2 : (env.parts d).timeInMinutes ≤ closingMinutes env) :
    isWithinBusinessHours env d true = true := by
  rw [isWithin_eq, hday]
  simp
  omega

/-! ### C6 -/

/-- C6: a window whose start falls on a closed weekday, or whose start
time-of-day is before opening or at/after closing, is resolved as
unavailable with reason "Outside business hours" and the free/busy query is
never made (empty external-call trace). -/
theorem C6_outside_hours_no_query (env : Env) (start e : Instant)
    (h : env.hours.days.contains (env.parts start).dayNumber = false ∨
         (env.parts start).timeInMinutes < openingMinutes env ∨
         closingMinutes env ≤ (env.parts start).timeInMinutes) :
    checkAvailability env start e = (.ok ⟨false, some "Outside business hours"⟩, []) := by
  have hw : isWithinBusinessHours env start false = false := by
    rcases h with h | h | h
    · exact isWithin_false_of_day env start false h
    · exact isWithin_false_of_early env start false h
    · exact isWithin_false_of_late env start h
  unfold checkAvailability
  simp [hw]

/-- Witness for C6: Saturday 1970-01-17 14:00 UTC is on a closed weekday;
the resolver rejects without any external call. -/
theorem C6_outside_hours_no_query_witness :
    checkAvailability demoEnv 1432800000 1434600000 =
      (.ok ⟨false, some "Outside business hours"⟩, []) :=
  C6_outside_hours_no_query demoEnv 1432800000 1434600000 (Or.inl (by decide))

/-! ### C5 -/

/-- C5: for a window starting within business hours on an open weekday
(with a free calendar), an end falling exactly at closing time is accepted,
while an end one minute past closing time is rejected with the
"extends beyond business hours" reason (and without a calendar query). -/
theorem C5_closing_boundary (env : Env) (start endAtClose endPastClose : Instant)
    (hday : env.hours.days.contains (env.parts start).dayNumber = true)
    (hs1 : openingMinutes env ≤ (env.parts start).timeInMinutes)
    (hs2 : (env.parts start).timeInMinutes < closingMinutes env)
    (heday : env.hours.days.contains (env.parts endAtClose).dayNumber = true)
    (het : (env.parts endAtClose).timeInMinutes = closingMinutes env)
    (hfree : env.freeBusy start endAtClose = .ok true)
    (hpt : (env.parts endPastClose).timeInMinutes = closingMinutes env + 1) :
    checkAvailability env start endAtClose =
      (.ok ⟨true, none⟩, [.checkFreeBusy start endAtClose (some true)]) ∧
    checkAvailability env start endPastClose =
      (.ok ⟨false, some "Appointment extends beyond business hours"⟩, []) := by
  have hws : isWithinBusinessHours env start false = true :=
    isWithin_true_strict env start hday hs1 hs2
  constructor
  · have hwe : isWithinBusinessHours env endAtClose true = true :=
      isWithin_true_boundary env endAtClose heday (by omega) (by omega)
    unfold checkAvailability
    simp [hws, hwe, hfree]
  · have hwe : isWithinBusinessHours env endPastClose true = false :=
      isWithin_false_of_past_boundary env endPastClose (by omega)
    unfold checkAvailability
    simp [hws, hwe]

/-- Witness for C5: Monday 1970-01-19 17:30-18:00 UTC is accepted with a free
calendar; 17:30-18:01 is rejected as extending past close. -/
theorem C5_closing_boundary_witness :
    checkAvailability demoEnv 1618200000 1620000000 =
      (.ok ⟨true, none⟩, [.checkFreeBusy 1618200000 1620000000 (some true)]) ∧
    checkAvailability demoEnv 1618200000 1620060000 =
      (.ok ⟨false, some "Appointment extends beyond business hours"⟩, []) :=
  C5_closing_boundary demoEnv 1618200000 1620000000 1620060000
    (by decide) (by decide) (by decide) (by decide) (by decide) rfl (by decide)

/-! ### C2 -/

/-- C2: an inbound appointment request with a caller name whose parseable
requested window (start plus the fixed 30-minute duration) ends at or before
the current instant is answered with the past-date re-confirmation message,
with no calendar-collaborator and no persistence-collaborator call; moreover
a `bookAppointment` tool invocation whose parsed window ends at or before the
current instant likewise makes no external call. -/
theorem C2_past_date_no_calls (env : Env) (d : Details) (s : String) (t : Instant)
    (hname : ¬ d.name = "")
    (hdt : d.requestedDateTime = some s)
    (hs : ¬ s = "")
    (hparse : env.dateParse (some s) = some t)
    (hpast : t + 30 * 60 * 1000 ≤ env.now) :
    handleVoiceWebhook env d = (.response 200 d.toolCallId pastDateMessage, []) ∧
    (∀ tc args ts te, env.parseArgs tc.argumentsText = .ok args →
      tc.name = "bookAppointment" →
      env.dateParse args.startTime = some ts → env.dateParse args.endTime = some te →
      te ≤ env.now → ∃ msg, executeTool env tc = .ok (msg, [])) := by
  constructor
  · have hguard : t < env.now := by linarith
    unfold handleVoiceWebhook
    rw [hdt]
    simp [hname, hs, hparse, hguard]
  · intro tc args ts te hargs hn hts hte hpe
    have hnc : ¬ tc.name = "checkAvailability" := by
      rw [hn]
      decide
    simp only [executeTool, hargs]
    rw [if_neg hnc, if_pos hn]
    by_cases hle : te ≤ ts
    · have hjs : jsLe (env.dateParse args.endTime) (env.dateParse args.startTime) = true := by
        rw [hte, hts]
        simp [jsLe, hle]
      refine ⟨"Error: End time must be after start time.", ?_⟩
      simp only [hjs]
      simp
    · have h1 : jsLe (env.dateParse args.endTime) (env.dateParse args.startTime) = false := by
        rw [hte, hts]
        simp only [jsLe, decide_eq_false_iff_not]
        exact hle
      have h2 : jsLt (env.dateParse args.startTime) (some env.now) = true := by
        rw [hts]
        simp only [jsLt, decide_eq_true_eq]
        have hlt : ts < te := lt_of_not_le hle
        linarith
      refine ⟨"Error: Cannot book appointments in the past.", ?_⟩
      simp only [h1, h2]
      simp

/-- Witness for C2: a request parsed to instant 1000 with `now` far later is
answered with the past-date message and an empty external-call trace, and a
too-early tool invocation is rejected without external calls. -/
theorem C2_past_date_no_calls_witness :
    handleVoiceWebhook demoEnv
        ⟨"tc-1", "John Doe", none, none, some "2020-01-01T10:00:00Z", none, none⟩ =
      (.response 200 "tc-1" pastDateMessage, []) ∧
    (∀ tc args ts te, demoEnv.parseArgs tc.argumentsText = .ok args →
      tc.name = "bookAppointment" →
      demoEnv.dateParse args.startTime = some ts → demoEnv.dateParse args.endTime = some te →
      te ≤ demoEnv.now → ∃ msg, executeTool demoEnv tc = .ok (msg, [])) :=
  C2_past_date_no_calls demoEnv
    ⟨"tc-1", "John Doe", none, none, some "2020-01-01T10:00:00Z", none, none⟩
    "2020-01-01T10:00:00Z" 1000 (by decide) rfl (by decide) rfl (by decide)

/-! ### C10 -/

/-- C10: a `bookAppointment` tool invocation whose parsed end time is at or
before its parsed start time returns exactly the end-after-start error text
and makes no external call. -/
theorem C10_end_not_after_start (env : Env) (tc : ToolCall) (args : ToolArgs)
    (ts te : Instant)
    (hargs : env.parseArgs tc.argumentsText = .ok args)
    (hn : tc.name = "bookAppointment")
    (hts : env.dateParse args.startTime = some ts)
    (hte : env.dateParse args.endTime = some te)
    (hle : te ≤ ts) :
    executeTool env tc = .ok ("Error: End time must be after start time.", []) := by
  have hnc : ¬ tc.name = "checkAvailability" := by
    rw [hn]
    decide
  have hjs : jsLe (env.dateParse args.endTime) (env.dateParse args.startTime) = true := by
    rw [hte, hts]
    simp [jsLe, hle]
  simp only [executeTool, hargs]
  rw [if_neg hnc, if_pos hn]
  simp only [hjs]
  simp

/-- Environment for the C10 witness: the argument text "argsC10" parses to a
window whose end equals its start. -/
def envC10 : Env :=
  { demoEnv with
    parseArgs := fun s =>
      if s = "argsC10" then .ok ⟨some "s", some "e", some "Jane", none, none⟩
      else .error "Unexpected token",
    dateParse := fun s =>
      match s with
      | some "s" => some 5000
      | some "e" => some 5000
      | _ => none }

/-- Witness for C10: concrete invocation with end equal to start. -/
theorem C10_end_not_after_start_witness :
    executeTool envC10 ⟨"tc-2", "bookAppointment", "argsC10"⟩ =
      .ok ("Error: End time must be after start time.", []) :=
  C10_end_not_after_start envC10 ⟨"tc-2", "bookAppointment", "argsC10"⟩
    ⟨some "s", some "e", some "Jane", none, none⟩ 5000 5000 rfl rfl rfl rfl (by decide)

/-! ### Lemmas about the slot scan and filter -/

theorem normalize_eq_self (env : Env) (s : Instant) (dm : Int) (n : Instant)
    (h : normalizeAppointmentTime env s dm = some n) : n = s := by
  simp only [normalizeAppointmentTime] at h
  split at h
  · exact (Option.some.injEq _ _ ▸ h).symm
  · exact Option.noConfusion h

theorem findSlotsLoop_bounds (busy : List (Instant × Instant)) (d e : Int) (m : Nat)
    (hd : 0 < d) :
    ∀ fuel (cur : Instant) n,
      (∀ x ∈ findSlotsLoop busy d e m fuel cur n, cur ≤ x) ∧
      (findSlotsLoop busy d e m fuel cur n).Sorted (fun a b => a ≤ b) := by
  intro fuel
  induction fuel with
  | zero =>
    intro cur n
    simp [findSlotsLoop, List.Sorted]
  | succ f ih =>
    intro cur n
    simp only [findSlotsLoop]
    split
    · split
      · obtain ⟨h1, h2⟩ := ih (cur + d) n
        refine ⟨fun x hx => ?_, h2⟩
        have := h1 x hx
        linarith
      · obtain ⟨h1, h2⟩ := ih (cur + d) (n + 1)
        constructor
        · intro x hx
          rcases List.mem_cons.mp hx with rfl | hx
          · exact le_refl x
          · have := h1 x hx
            linarith
        · rw [List.sorted_cons]
          refine ⟨fun b hb => ?_, h2⟩
          have := h1 b hb
          linarith
    · simp [List.Sorted]

theorem findSlotsLoop_no_overlap (busy : List (Instant × Instant)) (d e : Int) (m : Nat) :
    ∀ fuel (cur : Instant) n, ∀ x ∈ findSlotsLoop busy d e m fuel cur n,
      slotOverlapsBusy x (x + d) busy = false := by
  intro fuel
  induction fuel with
  | zero =>
    intro cur n x hx
    simp [findSlotsLoop] at hx
  | succ f ih =>
    intro cur n x hx
    simp only [findSlotsLoop] at hx
    rcases hcond : decide (cur + d ≤ e ∧ n < m) with _ | _
    · rw [if_neg (of_decide_eq_false hcond)] at hx
      simp at hx
    · rw [if_pos (of_decide_eq_true hcond)] at hx
      rcases hov : slotOverlapsBusy cur (cur + d) busy with _ | _
      · rw [if_neg (by simp [hov])] at hx
        rcases List.mem_cons.mp hx with rfl | hx
        · exact hov
        · exact ih (cur + d) (n + 1) x hx
      · rw [if_pos (by simp [hov])] at hx
        exact ih (cur + d) n x hx

theorem filterValidSlots_sublist (env : Env) :
    ∀ (l : List Instant) (rem : Nat), List.Sublist (filterValidSlots env l rem) l := by
  intro l
  induction l with
  | nil =>
    intro rem
    simp [filterValidSlots]
  | cons s rest ih =>
    intro rem
    match rem with
    | 0 => simp [filterValidSlots]
    | rem + 1 =>
      rcases hnorm : normalizeAppointmentTime env s 30 with _ | n
      · simp only [filterValidSlots, hnorm]
        exact (ih (rem + 1)).trans (List.sublist_cons_self s rest)
      · have hn := normalize_eq_self env s 30 n hnorm
        subst hn
        simp only [filterValidSlots, hnorm]
        split
        · exact List.Sublist.cons₂ n (ih rem)
        · exact (ih (rem + 1)).trans (List.sublist_cons_self n rest)

theorem filterValidSlots_length (env : Env) :
    ∀ (l : List Instant) (rem : Nat),
      (filterValidSlots env l rem).length =
        min rem (l.countP (fun x => passesFilter env x)) := by
  intro l
  induction l with
  | nil =>
    intro rem
    simp [filterValidSlots]
  | cons s rest ih =>
    intro rem
    match rem with
    | 0 => simp [filterValidSlots]
    | rem + 1 =>
      rcases hnorm : normalizeAppointmentTime env s 30 with _ | n
      · have hp : passesFilter env s = false := by
          simp [passesFilter, hnorm]
        simp only [filterValidSlots, hnorm, List.countP_cons, hp]
        simpa using ih (rem + 1)
      · simp only [filterValidSlots, hnorm]
        split
        · rename_i hw
          have hp : passesFilter env s = true := by
            simp [passesFilter, hnorm, hw]
          simp only [List.length_cons, List.countP_cons, hp, ih rem]
          simp
          omega
        · rename_i hw
          have hp : passesFilter env s = false := by
            simp only [passesFilter, hnorm]
            simpa using hw
          simp only [List.countP_cons, hp, ih (rem + 1)]
          simp

theorem overlap_implies_test (s e bs be : Instant) (h1 : s < be) (h2 : bs < e) :
    ((decide (bs ≤ s) && decide (s < be)) ||
     (decide (bs < e) && decide (e ≤ be)) ||
     (decide (s ≤ bs) && decide (be ≤ e))) = true := by
  rcases le_or_lt bs s with hb | hb
  · simp [hb, h1]
  · rcases le_or_lt e be with hc | hc
    · simp [h2, hc]
    · have ha : s ≤ bs := le_of_lt hb
      have hbe : be ≤ e := le_of_lt hc
      simp [ha, hbe]

/-! ### C3 -/

/-- C3: with a positive slot duration, the alternative-slot search never
returns more than `count` starts, every returned window is disjoint from
every busy interval reported by the calendar, and the starts are in
non-decreasing order. -/
theorem C3_alternative_search_sound (env : Env) (requestedStart : Instant)
    (count : Nat) (lookAheadDays : Int) (candidateMultiplier : Nat)
    (busy : List (Instant × Instant)) (slots : List Instant) (tr : List Event)
    (hdur : 0 < env.durationMinutes)
    (hbusy : env.busyList requestedStart (requestedStart + lookAheadDays * 86400000) = .ok busy)
    (hres : findNextAvailableSlots env requestedStart count lookAheadDays candidateMultiplier
      = (.ok slots, tr)) :
    slots.length ≤ count ∧
    slots.Sorted (fun a b => a ≤ b) ∧
    ∀ s ∈ slots, ∀ b ∈ busy,
      ¬ (s < b.2 ∧ b.1 < s + env.durationMinutes * 60 * 1000) := by
  have hd : (0 : Int) < env.durationMinutes * 60 * 1000 :=
    mul_pos (mul_pos hdur (by norm_num)) (by norm_num)
  simp only [findNextAvailableSlots, findAvailableSlots, hbusy] at hres
  injection hres with h1 h2
  injection h1 with hslots
  subst hslots
  set raw := findSlotsLoop busy (env.durationMinutes * 60 * 1000)
    (requestedStart + lookAheadDays * 86400000) (count * candidateMultiplier)
    ((requestedStart + lookAheadDays * 86400000 - requestedStart).toNat /
      (env.durationMinutes * 60 * 1000).toNat + 1)
    requestedStart 0 with hraw
  refine ⟨?_, ?_, ?_⟩
  · rw [filterValidSlots_length]
    exact Nat.min_le_left _ _
  · have hsorted := (findSlotsLoop_bounds busy (env.durationMinutes * 60 * 1000)
      (requestedStart + lookAheadDays * 86400000) (count * candidateMultiplier) hd
      ((requestedStart + lookAheadDays * 86400000 - requestedStart).toNat /
        (env.durationMinutes * 60 * 1000).toNat + 1)
      requestedStart 0).2
    exact hsorted.sublist (filterValidSlots_sublist env raw count)
  · intro s hs b hb hcontra
    have hmem : s ∈ raw := (filterValidSlots_sublist env raw count).subset hs
    have hno := findSlotsLoop_no_overlap busy (env.durationMinutes * 60 * 1000)
      (requestedStart + lookAheadDays * 86400000) (count * candidateMultiplier)
      ((requestedStart + lookAheadDays * 86400000 - requestedStart).toNat /
        (env.durationMinutes * 60 * 1000).toNat + 1)
      requestedStart 0 s hmem
    have htest := overlap_implies_test s (s + env.durationMinutes * 60 * 1000) b.1 b.2
      hcontra.1 hcontra.2
    have hov : slotOverlapsBusy s (s + env.durationMinutes * 60 * 1000) busy = true := by
      unfold slotOverlapsBusy
      rw [List.any_eq_true]
      exact ⟨b, hb, htest⟩
    rw [hno] at hov
    exact Bool.false_ne_true hov

/-- Witness for C3: a free Monday-morning request returns three sorted,
non-overlapping starts. -/
theorem C3_alternative_search_sound_witness :
    ([1591200000, 1593000000, 1594800000] : List Instant).length ≤ 3 ∧
    ([1591200000, 1593000000, 1594800000] : List Instant).Sorted (fun a b => a ≤ b) ∧
    ∀ s ∈ ([1591200000, 1593000000, 1594800000] : List Instant),
      ∀ b ∈ ([] : List (Instant × Instant)),
        ¬ (s < b.2 ∧ b.1 < s + demoEnv.durationMinutes * 60 * 1000) :=
  C3_alternative_search_sound demoEnv 1591200000 3 60 10 [] [1591200000, 1593000000, 1594800000]
    [.listFreeBusy 1591200000 (1591200000 + 60 * 86400000)]
    (by decide) rfl rfl

/-! ### C4 -/

/-- C4 as stated is false; the scan only filters the at most
`count * candidateMultiplier` busy-free candidates obtained from the single
calendar query.  Amended form: whenever at least `count` of those raw
candidates pass the business-hours rule, exactly `count` slots are
returned. -/
theorem C4_amended_budgeted_scan (env : Env) (requestedStart : Instant)
    (count : Nat) (lookAheadDays : Int) (candidateMultiplier : Nat)
    (slots : List Instant) (tr : List Event)
    (hraw : findAvailableSlots env requestedStart (requestedStart + lookAheadDays * 86400000)
      env.durationMinutes (count * candidateMultiplier) = (.ok slots, tr))
    (hcnt : count ≤ slots.countP (fun x => passesFilter env x)) :
    findNextAvailableSlots env requestedStart count lookAheadDays candidateMultiplier
      = (.ok (filterValidSlots env slots count), tr) ∧
    (filterValidSlots env slots count).length = count := by
  constructor
  · simp only [findNextAvailableSlots, hraw]
  · rw [filterValidSlots_length]
    omega

/-- The raw busy-free candidate list for the C4 witness: 30 half-hour starts
from Monday 1970-01-19 09:00 UTC. -/
def rawC4 : List Instant := (List.range 30).map fun k => 1591200000 + 1800000 * (k : Int)

/-- Witness for the amended C4: a Monday-morning request with a free calendar
returns exactly 3 slots. -/
theorem C4_amended_budgeted_scan_witness :
    findNextAvailableSlots demoEnv 1591200000 3 60 10
      = (.ok (filterValidSlots demoEnv rawC4 3),
         [.listFreeBusy 1591200000 (1591200000 + 60 * 86400000)]) ∧
    (filterValidSlots demoEnv rawC4 3).length = 3 :=
  C4_amended_budgeted_scan demoEnv 1591200000 3 60 10 rawC4
    [.listFreeBusy 1591200000 (1591200000 + 60 * 86400000)] rfl (by decide)

/-- Counterexample to C4 as stated: with a free calendar and a request for
Friday 1970-01-16 18:00 UTC, at least three bookable slots exist within the
60-day lookahead window (Monday 09:00, 09:30 and 10:00 — busy-disjoint,
on the half-hour scan grid from the requested start, and within business
hours), yet the search returns no slots: its 30 raw candidates all fall on
Friday evening or Saturday morning, outside business hours. -/
theorem C4_counterexample :
    (findNextAvailableSlots demoEnv 1360800000 3 60 10).1 = .ok [] ∧
    passesFilter demoEnv 1587600000 = true ∧
    passesFilter demoEnv 1589400000 = true ∧
    passesFilter demoEnv 1591200000 = true ∧
    slotOverlapsBusy 1587600000 (1587600000 + 1800000) [] = false ∧
    slotOverlapsBusy 1589400000 (1589400000 + 1800000) [] = false ∧
    slotOverlapsBusy 1591200000 (1591200000 + 1800000) [] = false ∧
    (1587600000 : Int) = 1360800000 + 126 * 1800000 ∧
    (1589400000 : Int) = 1360800000 + 127 * 1800000 ∧
    (1591200000 : Int) = 1360800000 + 128 * 1800000 ∧
    (1591200000 : Int) + 1800000 ≤ 1360800000 + 60 * 86400000 := by
  refine ⟨rfl, ?_⟩
  decide

/-! ### C1: the check-before-book trace invariant -/

/-- `cpbcAux checked tr` holds when every `createEvent s e` in `tr` is
preceded (in `tr`, or already in `checked`) by a `checkFreeBusy s e` call
that returned free. -/
def cpbcAux (checked : List (Instant × Instant)) : List Event → Prop
  | [] => True
  | Event.createEvent s e :: rest => (s, e) ∈ checked ∧ cpbcAux checked rest
  | Event.checkFreeBusy s e r :: rest =>
      cpbcAux (if r = some true then (s, e) :: checked else checked) rest
  | _ :: rest => cpbcAux checked rest

/-- The trace creates calendar events only for windows previously confirmed
free by an availability resolution in the same trace. -/
def createOnlyAfterCheck (tr : List Event) : Prop :=
  ∀ checked, cpbcAux checked tr

theorem cpbcAux_append (t1 t2 : List Event) :
    ∀ checked, cpbcAux checked t1 → createOnlyAfterCheck t2 →
      cpbcAux checked (t1 ++ t2) := by
  induction t1 with
  | nil =>
    intro c _ h2
    exact h2 c
  | cons ev rest ih =>
    intro c h1 h2
    cases ev with
    | createEvent s e =>
      obtain ⟨hm, hr⟩ := h1
      exact ⟨hm, ih c hr h2⟩
    | checkFreeBusy s e r => exact ih _ h1 h2
    | listFreeBusy s e => exact ih c h1 h2
    | createAppointment s e => exact ih c h1 h2
    | createCallLog => exact ih c h1 h2
    | updateCallLog => exact ih c h1 h2

theorem createOnlyAfterCheck_append {t1 t2 : List Event}
    (h1 : createOnlyAfterCheck t1) (h2 : createOnlyAfterCheck t2) :
    createOnlyAfterCheck (t1 ++ t2) :=
  fun c => cpbcAux_append t1 t2 c (h1 c) h2

theorem createOnlyAfterCheck_of_no_create (tr : List Event)
    (h : ∀ s e, Event.createEvent s e ∉ tr) : createOnlyAfterCheck tr := by
  induction tr with
  | nil => exact fun _ => trivial
  | cons ev rest ih =>
    have hrest : ∀ s e, Event.createEvent s e ∉ rest := fun s e hmem =>
      h s e (List.mem_cons_of_mem ev hmem)
    intro c
    cases ev with
    | createEvent s e => exact absurd (List.mem_cons_self _ _) (h s e)
    | checkFreeBusy s e r => exact ih hrest _
    | listFreeBusy s e => exact ih hrest c
    | createAppointment s e => exact ih hrest c
    | createCallLog => exact ih hrest c
    | updateCallLog => exact ih hrest c

theorem checkAvailability_trace (env : Env) (s e : Instant) :
    (checkAvailability env s e).2 = [] ∨
    ∃ r, (checkAvailability env s e).2 = [Event.checkFreeBusy s e r] := by
  unfold checkAvailability
  split
  · left
    rfl
  · split
    · left
      rfl
    · cases hfb : env.freeBusy s e with
      | error m =>
        right
        exact ⟨none, rfl⟩
      | ok b =>
        right
        exact ⟨some b, rfl⟩

theorem checkAvailability_cOAC (env : Env) (s e : Instant) :
    createOnlyAfterCheck (checkAvailability env s e).2 := by
  rcases checkAvailability_trace env s e with h | ⟨r, h⟩ <;> rw [h] <;> intro c
  · trivial
  · simp [cpbcAux]

theorem checkAvailability_ok_true (env : Env) (s e : Instant) (av : AvCheck)
    (tr : List Event) (h : checkAvailability env s e = (.ok av, tr))
    (hav : av.available = true) :
    tr = [Event.checkFreeBusy s e (some true)] := by
  unfold checkAvailability at h
  split at h
  · injection h with h1 h2
    injection h1 with h1
    rw [← h1] at hav
    simp at hav
  · split at h
    · injection h with h1 h2
      injection h1 with h1
      rw [← h1] at hav
      simp at hav
    · split at h
      · injection h with h1 h2
        exact Except.noConfusion h1
      · rename_i b heq
        injection h with h1 h2
        injection h1 with h1
        rw [← h1] at hav
        simp at hav
        subst hav
        exact h2.symm

theorem bookAppointment_cOAC (env : Env) (p : BookParams) :
    createOnlyAfterCheck (bookAppointment env p).2 := by
  cases hca : checkAvailability env p.start p.endT with
  | mk res tr =>
    have hc := checkAvailability_cOAC env p.start p.endT
    rw [hca] at hc
    cases res with
    | error m =>
      simp only [bookAppointment, hca]
      exact hc
    | ok availability =>
      simp only [bookAppointment, hca]
      by_cases hav : availability.available = true
      · have htr := checkAvailability_ok_true env p.start p.endT availability tr hca hav
        subst htr
        rw [if_neg (by simp [hav])]
        cases env.createEv p.start p.endT with
        | error m =>
          intro c
          simp [cpbcAux]
        | ok eventId =>
          cases env.persist p.start p.endT with
          | error m =>
            intro c
            simp [cpbcAux]
          | ok apptId =>
            intro c
            simp [cpbcAux]
      · rw [if_pos hav]
        exact hc

theorem findAvailableSlots_cOAC (env : Env) (s e : Instant) (d : Int) (m : Nat) :
    createOnlyAfterCheck (findAvailableSlots env s e d m).2 := by
  cases hb : env.busyList s e with
  | error m2 =>
    simp only [findAvailableSlots, hb]
    intro c
    simp [cpbcAux]
  | ok busy =>
    simp only [findAvailableSlots, hb]
    intro c
    simp [cpbcAux]

theorem findNextAvailableSlots_cOAC (env : Env) (r : Instant) (cnt : Nat)
    (la : Int) (m : Nat) :
    createOnlyAfterCheck (findNextAvailableSlots env r cnt la m).2 := by
  have h := findAvailableSlots_cOAC env r (r + la * 86400000) env.durationMinutes (cnt * m)
  cases hfa : findAvailableSlots env r (r + la * 86400000) env.durationMinutes (cnt * m) with
  | mk res tr =>
    rw [hfa] at h
    cases res with
    | error m2 =>
      simp only [findNextAvailableSlots, hfa]
      exact h
    | ok slots =>
      simp only [findNextAvailableSlots, hfa]
      exact h

theorem executeTool_cOAC (env : Env) (tc : ToolCall) (txt : String) (tr : List Event)
    (h : executeTool env tc = .ok (txt, tr)) : createOnlyAfterCheck tr := by
  cases hargs : env.parseArgs tc.argumentsText with
  | error m =>
    simp only [executeTool, hargs] at h
    exact Except.noConfusion h
  | ok args =>
    simp only [executeTool, hargs] at h
    by_cases hn1 : tc.name = "checkAvailability"
    · rw [if_pos hn1] at h
      cases hds : env.dateParse args.startTime with
      | none =>
        simp only [hds] at h
        injection h with h1
        injection h1 with h1 h2
        subst h2
        exact fun _ => trivial
      | some s =>
        cases hde : env.dateParse args.endTime with
        | none =>
          simp only [hds, hde] at h
          injection h with h1
          injection h1 with h1 h2
          subst h2
          exact fun _ => trivial
        | some e =>
          simp only [hds, hde] at h
          cases hca : checkAvailability env s e with
          | mk res tr0 =>
            have hc := checkAvailability_cOAC env s e
            rw [hca] at hc
            cases res with
            | error m =>
              simp only [hca] at h
              injection h with h1
              injection h1 with h1 h2
              subst h2
              exact hc
            | ok result =>
              simp only [hca] at h
              by_cases hava : result.available = true
              · rw [if_pos hava] at h
                injection h with h1
                injection h1 with h1 h2
                subst h2
                exact hc
              · rw [if_neg hava] at h
                injection h with h1
                injection h1 with h1 h2
                subst h2
                exact hc
    · rw [if_neg hn1] at h
      by_cases hn2 : tc.name = "bookAppointment"
      · rw [if_pos hn2] at h
        by_cases hjs : jsLe (env.dateParse args.endTime) (env.dateParse args.startTime) = true
        · rw [if_pos hjs] at h
          injection h with h1
          injection h1 with h1 h2
          subst h2
          exact fun _ => trivial
        · rw [if_neg hjs] at h
          by_cases hjt : jsLt (env.dateParse args.startTime) (some env.now) = true
          · rw [if_pos hjt] at h
            injection h with h1
            injection h1 with h1 h2
            subst h2
            exact fun _ => trivial
          · rw [if_neg hjt] at h
            cases hds : env.dateParse args.startTime with
            | none =>
              simp only [hds] at h
              injection h with h1
              injection h1 with h1 h2
              subst h2
              exact fun _ => trivial
            | some s =>
              cases hde : env.dateParse args.endTime with
              | none =>
                simp only [hds, hde] at h
                injection h with h1
                injection h1 with h1 h2
                subst h2
                exact fun _ => trivial
              | some en =>
                simp only [hds, hde] at h
                cases hbk : bookAppointment env
                    ⟨s, en, args.name.getD "undefined", args.phone, args.email,
                     none, none⟩ with
                | mk res tr0 =>
                  have hb := bookAppointment_cOAC env
                    ⟨s, en, args.name.getD "undefined", args.phone, args.email, none, none⟩
                  rw [hbk] at hb
                  cases res with
                  | error m =>
                    simp only [hbk] at h
                    injection h with h1
                    injection h1 with h1 h2
                    subst h2
                    exact hb
                  | ok booked =>
                    simp only [hbk] at h
                    injection h with h1
                    injection h1 with h1 h2
                    subst h2
                    exact hb
      · rw [if_neg hn2] at h
        injection h with h1
        injection h1 with h1 h2
        subst h2
        exact fun _ => trivial

theorem execTools_cOAC (env : Env) (tcs : List ToolCall) :
    createOnlyAfterCheck (execTools env tcs).2 := by
  induction tcs with
  | nil => exact fun _ => trivial
  | cons tc rest ih =>
    cases het : executeTool env tc with
    | error m =>
      simp only [execTools, het]
      exact fun _ => trivial
    | ok pr =>
      cases pr with
      | mk txt tr =>
        have h1 := executeTool_cOAC env tc txt tr het
        cases hrest : execTools env rest with
        | mk r tr2 =>
          rw [hrest] at ih
          simp only [execTools, het, hrest]
          exact createOnlyAfterCheck_append h1 ih

theorem agentSteps_cOAC (env : Env) :
    ∀ (fuel i : Nat), createOnlyAfterCheck (agentSteps env i fuel).2 := by
  intro fuel
  induction fuel with
  | zero =>
    intro i
    exact fun _ => trivial
  | succ f ih =>
    intro i
    cases hl : env.llm i with
    | error m =>
      simp only [agentSteps, hl]
      exact fun _ => trivial
    | ok resp =>
      cases hts : resp.toolCalls with
      | nil =>
        simp only [agentSteps, hl, hts]
        exact fun _ => trivial
      | cons tc rest =>
        have h1 := execTools_cOAC env (tc :: rest)
        cases hex : execTools env (tc :: rest) with
        | mk r tr =>
          rw [hex] at h1
          cases r with
          | error m =>
            simp only [agentSteps, hl, hts, hex]
            exact h1
          | ok u =>
            have h2 := ih (i + 1)
            cases hrec : agentSteps env (i + 1) f with
            | mk r2 tr2 =>
              rw [hrec] at h2
              simp only [agentSteps, hl, hts, hex, hrec]
              exact createOnlyAfterCheck_append h1 h2

theorem processAppointmentRequest_cOAC (env : Env) (p : ProcessParams) :
    createOnlyAfterCheck (processAppointmentRequest env p).2 :=
  agentSteps_cOAC env 10 0

theorem alternativesPath_cOAC (env : Env) (p : ProcessParams) (r : Instant) :
    createOnlyAfterCheck (alternativesPath env p r).2 := by
  cases hf : findNextAvailableSlots env r 3 60 10 with
  | mk res tr =>
    have h1 := findNextAvailableSlots_cOAC env r 3 60 10
    rw [hf] at h1
    cases res with
    | error m =>
      cases hp : processAppointmentRequest env p with
      | mk r2 tr2 =>
        have h2 := processAppointmentRequest_cOAC env p
        rw [hp] at h2
        simp only [alternativesPath, hf, hp]
        exact createOnlyAfterCheck_append h1 h2
    | ok alternatives =>
      simp only [alternativesPath, hf]
      split
      · exact h1
      · exact h1

theorem processWithAlternatives_cOAC (env : Env) (p : ProcessParams) :
    createOnlyAfterCheck (processAppointmentRequestWithAlternatives env p).2 := by
  cases hdt : p.requestedDateTime with
  | none =>
    simp only [processAppointmentRequestWithAlternatives, hdt]
    exact processAppointmentRequest_cOAC env p
  | some dt =>
    by_cases hdt0 : dt = ""
    · simp only [processAppointmentRequestWithAlternatives, hdt, if_pos hdt0]
      exact processAppointmentRequest_cOAC env p
    · cases hdp : env.dateParse (some dt) with
      | none =>
        simp only [processAppointmentRequestWithAlternatives, hdt, if_neg hdt0, hdp]
        exact processAppointmentRequest_cOAC env p
      | some requestedStart =>
        cases hca : checkAvailability env requestedStart (requestedStart + 30 * 60 * 1000) with
        | mk res tr =>
          have hc := checkAvailability_cOAC env requestedStart (requestedStart + 30 * 60 * 1000)
          rw [hca] at hc
          cases res with
          | error m =>
            cases hp : processAppointmentRequest env p with
            | mk r2 tr2 =>
              have h2 := processAppointmentRequest_cOAC env p
              rw [hp] at h2
              simp only [processAppointmentRequestWithAlternatives, hdt, if_neg hdt0, hdp, hca,
                hp]
              exact createOnlyAfterCheck_append hc h2
          | ok availability =>
            simp only [processAppointmentRequestWithAlternatives, hdt, if_neg hdt0, hdp, hca]
            by_cases hav : availability.available = true
            · rw [if_pos hav]
              cases hbk : bookAppointment env
                  ⟨requestedStart, requestedStart + 30 * 60 * 1000, p.name, p.phone, p.email,
                   p.callLogId, p.businessId⟩ with
              | mk res2 tr2 =>
                have hb := bookAppointment_cOAC env
                  ⟨requestedStart, requestedStart + 30 * 60 * 1000, p.name, p.phone, p.email,
                   p.callLogId, p.businessId⟩
                rw [hbk] at hb
                cases res2 with
                | ok booked =>
                  simp only [hbk]
                  exact createOnlyAfterCheck_append hc hb
                | error m =>
                  cases hap : alternativesPath env p requestedStart with
                  | mk r3 tr3 =>
                    have ha := alternativesPath_cOAC env p requestedStart
                    rw [hap] at ha
                    simp only [hbk, hap]
                    exact createOnlyAfterCheck_append (createOnlyAfterCheck_append hc hb) ha
            · rw [if_neg hav]
              cases hap : alternativesPath env p requestedStart with
              | mk r3 tr3 =>
                have ha := alternativesPath_cOAC env p requestedStart
                rw [hap] at ha
                simp only [hap]
                exact createOnlyAfterCheck_append hc ha

theorem handleVoiceWebhook_cOAC (env : Env) (d : Details) :
    createOnlyAfterCheck (handleVoiceWebhook env d).2 := by
  simp only [handleVoiceWebhook]
  split
  · exact fun _ => trivial
  · split
    · exact fun _ => trivial
    · have h0 : createOnlyAfterCheck
          (if env.callLogParseOk = true then [Event.createCallLog] else []) := by
        split
        · intro c
          simp [cpbcAux]
        · exact fun _ => trivial
      cases hp : processAppointmentRequestWithAlternatives env
          ⟨d.name, d.phone, d.email, d.requestedDateTime,
           if env.callLogParseOk = true then some env.callLogId else none, d.businessId,
           d.businessContextPrompt⟩ with
      | mk res tr1 =>
        have h1 := processWithAlternatives_cOAC env
          ⟨d.name, d.phone, d.email, d.requestedDateTime,
           if env.callLogParseOk = true then some env.callLogId else none, d.businessId,
           d.businessContextPrompt⟩
        rw [hp] at h1
        cases res with
        | ok result =>
          have h2 : createOnlyAfterCheck
              ((match (if env.callLogParseOk = true then some env.callLogId else none :
                  Option String) with
                | some _ => [Event.updateCallLog]
                | none => []) : List Event) := by
            cases env.callLogParseOk with
            | false => exact fun _ => trivial
            | true => exact fun _ => trivial
          exact createOnlyAfterCheck_append (createOnlyAfterCheck_append h0 h1) h2
        | error m => exact createOnlyAfterCheck_append h0 h1

/-- C1: on every execution flow — the webhook handler, the fast booking path
and the tool-calling agent loop — the external trace creates a calendar
event only for a window that an earlier availability resolution in the same
flow confirmed free (`checkFreeBusy` returning free for that very window).
There is no path that books without first resolving availability. -/
theorem C1_always_check_before_book (env : Env) (d : Details) (p : ProcessParams) :
    createOnlyAfterCheck (handleVoiceWebhook env d).2 ∧
    createOnlyAfterCheck (processAppointmentRequestWithAlternatives env p).2 ∧
    createOnlyAfterCheck (processAppointmentRequest env p).2 ∧
    ∀ bp : BookParams, createOnlyAfterCheck (bookAppointment env bp).2 :=
  ⟨handleVoiceWebhook_cOAC env d, processWithAlternatives_cOAC env p,
   processAppointmentRequest_cOAC env p, fun bp => bookAppointment_cOAC env bp⟩

/-! ### C7 -/

/-- After a successful argument parse, `executeTool` never propagates an
exception: every branch inside the `try` yields an `.ok` text result. -/
theorem executeTool_total (env : Env) (tc : ToolCall) (args : ToolArgs)
    (h : env.parseArgs tc.argumentsText = .ok args) :
    ∃ txt tr, executeTool env tc = .ok (txt, tr) := by
  simp only [executeTool, h]
  split
  all_goals try split
  all_goals try split
  all_goals try split
  all_goals try split
  all_goals try split
  all_goals exact ⟨_, _, rfl⟩

/-- When every invocation's argument text parses, the tool-execution loop of
one agent iteration runs to completion. -/
theorem execTools_total (env : Env) :
    ∀ tcs : List ToolCall,
      (∀ tc2 ∈ tcs, ∃ a, env.parseArgs tc2.argumentsText = .ok a) →
      ∃ tr, execTools env tcs = (.ok (), tr) := by
  intro tcs
  induction tcs with
  | nil =>
    intro _
    exact ⟨[], rfl⟩
  | cons tc rest ih =>
    intro hall
    obtain ⟨a, ha⟩ := hall tc (List.mem_cons_self _ _)
    obtain ⟨txt, tr, het⟩ := executeTool_total env tc a ha
    obtain ⟨tr2, hrest⟩ := ih fun tc2 hm => hall tc2 (List.mem_cons_of_mem _ hm)
    refine ⟨tr ++ tr2, ?_⟩
    simp only [execTools, het, hrest]

/-- C7 corrected: once the argument text parses, every exception inside the
tool handler — calendar or persistence failures, invalid dates, unknown tool
names — is caught per-invocation and returned as an error-text result, and
the tool loop completes, returning control to the model.  An argument parse
failure, however, is raised before the per-invocation try/catch (see the
counterexample) and aborts the loop. -/
theorem C7_caught_per_invocation (env : Env) (tc : ToolCall) (args : ToolArgs)
    (h : env.parseArgs tc.argumentsText = .ok args) :
    (∃ txt tr, executeTool env tc = .ok (txt, tr)) ∧
    (∀ tcs : List ToolCall,
      (∀ tc2 ∈ tcs, ∃ a, env.parseArgs tc2.argumentsText = .ok a) →
      ∃ tr, execTools env tcs = (.ok (), tr)) :=
  ⟨executeTool_total env tc args h, execTools_total env⟩

/-- Witness for C7 (amended): a parseable invocation of an unknown tool
yields an `.ok` error-text result. -/
theorem C7_caught_per_invocation_witness :
    (∃ txt tr, executeTool demoEnv ⟨"tc9", "unknownTool", "\x7b\x7d"⟩ = .ok (txt, tr)) ∧
    (∀ tcs : List ToolCall,
      (∀ tc2 ∈ tcs, ∃ a, demoEnv.parseArgs tc2.argumentsText = .ok a) →
      ∃ tr, execTools demoEnv tcs = (.ok (), tr)) :=
  C7_caught_per_invocation demoEnv ⟨"tc9", "unknownTool", "\x7b\x7d"⟩
    ⟨none, none, none, none, none⟩ rfl

/-- Environment for the C7 counterexample: the model's first response carries
one tool call whose argument text does not parse as JSON. -/
def envC7 : Env :=
  { demoEnv with
    llm := fun i =>
      if i = 0 then .ok ⟨none, [⟨"tc1", "bookAppointment", "not json"⟩]⟩
      else .error "no response" }

/-- Counterexample to C7 as stated: a tool-argument parse failure is NOT
turned into an error-text tool result — `executeTool` propagates it as an
exception and the agent loop aborts instead of continuing to the next model
turn. -/
theorem C7_counterexample :
    executeTool envC7 ⟨"tc1", "bookAppointment", "not json"⟩ = .error "Unexpected token" ∧
    agentSteps envC7 0 10 = (.error "Unexpected token", []) :=
  ⟨rfl, rfl⟩

/-! ### C8 -/

/-- C8 corrected: a model response with no tool invocations terminates the
loop at once, and the text classification keys on the full phrase
"appointment has been booked" (case-insensitively) — not on the bare word
"booked" — then on "unavailable"/"these times are", and otherwise Failed. -/
theorem C8_keyword_classification (env : Env) (i fuel : Nat) (resp : LlmResponse) (c : String)
    (hllm : env.llm i = .ok resp)
    (hnt : resp.toolCalls = [])
    (hc : resp.content = some c) :
    agentSteps env i (fuel + 1) = (.ok ⟨c, classifyContent c, none, none⟩, []) ∧
    (containsSub (lowerStr c) "appointment has been booked" = true →
      classifyContent c = .booked) ∧
    (containsSub (lowerStr c) "appointment has been booked" = false →
      (containsSub (lowerStr c) "unavailable" = true ∨
       containsSub (lowerStr c) "these times are" = true) →
      classifyContent c = .suggested_alternatives) ∧
    (containsSub (lowerStr c) "appointment has been booked" = false →
      containsSub (lowerStr c) "unavailable" = false →
      containsSub (lowerStr c) "these times are" = false →
      classifyContent c = .failed) := by
  refine ⟨?_, ?_, ?_, ?_⟩
  · simp only [agentSteps, hllm, hnt, hc, Option.getD_some]
  · intro h1
    simp [classifyContent, h1]
  · intro h1 h2
    rcases h2 with h2 | h2 <;> simp [classifyContent, h1, h2]
  · intro h1 h2 h3
    simp [classifyContent, h1, h2, h3]

/-- Witness for C8 (amended): applied to the terminal response
"Your slot is booked.". -/
theorem C8_keyword_classification_witness :
    agentSteps demoEnv 0 (9 + 1) =
      (.ok ⟨"Your slot is booked.", classifyContent "Your slot is booked.", none, none⟩, []) ∧
    (containsSub (lowerStr "Your slot is booked.") "appointment has been booked" = true →
      classifyContent "Your slot is booked." = .booked) ∧
    (containsSub (lowerStr "Your slot is booked.") "appointment has been booked" = false →
      (containsSub (lowerStr "Your slot is booked.") "unavailable" = true ∨
       containsSub (lowerStr "Your slot is booked.") "these times are" = true) →
      classifyContent "Your slot is booked." = .suggested_alternatives) ∧
    (containsSub (lowerStr "Your slot is booked.") "appointment has been booked" = false →
      containsSub (lowerStr "Your slot is booked.") "unavailable" = false →
      containsSub (lowerStr "Your slot is booked.") "these times are" = false →
      classifyContent "Your slot is booked." = .failed) :=
  C8_keyword_classification demoEnv 0 9 ⟨some "Your slot is booked.", []⟩
    "Your slot is booked." rfl rfl rfl

/-- Counterexample to C8 as stated: the terminal text "Your slot is booked."
contains the keyword "booked" but the loop classifies it as Failed, because
the code matches the full phrase "appointment has been booked". -/
theorem C8_counterexample :
    containsSub (lowerStr "Your slot is booked.") "booked" = true ∧
    agentSteps demoEnv 0 10 = (.ok ⟨"Your slot is booked.", .failed, none, none⟩, []) :=
  ⟨rfl, rfl⟩

/-! ### C9 -/

/-- C9: normalization returns an already-canonical payload (one with a
truthy `body.message.toolCalls` path) unchanged — hence it is idempotent on
all recognized inputs — and the four documented wrapper shapes carrying the
same tool-call id, function name and argument text all normalize to the
bit-identical canonical payload. -/
theorem C9_normalizer_idempotent_shape_agnostic (id fname args : String) (raw : Json)
    (hraw : jsTruthy (getPath raw ["body", "message", "toolCalls"]) = true) :
    parseRequest raw = raw ∧
    parseRequest (shapeWrappedBody id fname args) = shapeWrappedBody id fname args ∧
    parseRequest (shapeMessageRoot id fname args) = shapeWrappedBody id fname args ∧
    parseRequest (shapeFlatToolCall id fname args) = shapeWrappedBody id fname args ∧
    parseRequest (shapeDeepWrapped id fname args) = shapeWrappedBody id fname args ∧
    parseRequest (parseRequest (shapeMessageRoot id fname args)) =
      parseRequest (shapeMessageRoot id fname args) ∧
    parseRequest (parseRequest (shapeFlatToolCall id fname args)) =
      parseRequest (shapeFlatToolCall id fname args) ∧
    parseRequest (parseRequest (shapeDeepWrapped id fname args)) =
      parseRequest (shapeDeepWrapped id fname args) := by
  have hcanon : ∀ r2 : Json, jsTruthy (getPath r2 ["body", "message", "toolCalls"]) = true →
      parseRequest r2 = r2 := by
    intro r2 h2
    unfold parseRequest
    rw [if_pos h2]
  have h1 : parseRequest (shapeWrappedBody id fname args) = shapeWrappedBody id fname args :=
    hcanon _ rfl
  have h2 : parseRequest (shapeMessageRoot id fname args) = shapeWrappedBody id fname args := rfl
  have h3 : parseRequest (shapeFlatToolCall id fname args) = shapeWrappedBody id fname args := rfl
  have h4 : parseRequest (shapeDeepWrapped id fname args) = shapeWrappedBody id fname args := by
    simp [parseRequest, shapeDeepWrapped, shapeWrappedBody, canonicalPayload,
      findToolCallDeep, findInList, findInFields, getPath, jsonGet, objGet, jsTruthy,
      isJsObject, jsNullish]
  exact ⟨hcanon raw hraw, h1, h2, h3, h4,
    by rw [h2, h1], by rw [h3, h1], by rw [h4, h1]⟩

/-- Witness for C9: concrete id/name/arguments and a concrete canonical
payload. -/
theorem C9_normalizer_witness :
    parseRequest (shapeWrappedBody "w" "x" "y") = shapeWrappedBody "w" "x" "y" ∧
    parseRequest (shapeWrappedBody "a" "checkAvailability" "argtext") =
      shapeWrappedBody "a" "checkAvailability" "argtext" ∧
    parseRequest (shapeMessageRoot "a" "checkAvailability" "argtext") =
      shapeWrappedBody "a" "checkAvailability" "argtext" ∧
    parseRequest (shapeFlatToolCall "a" "checkAvailability" "argtext") =
      shapeWrappedBody "a" "checkAvailability" "argtext" ∧
    parseRequest (shapeDeepWrapped "a" "checkAvailability" "argtext") =
      shapeWrappedBody "a" "checkAvailability" "argtext" ∧
    parseRequest (parseRequest (shapeMessageRoot "a" "checkAvailability" "argtext")) =
      parseRequest (shapeMessageRoot "a" "checkAvailability" "argtext") ∧
    parseRequest (parseRequest (shapeFlatToolCall "a" "checkAvailability" "argtext")) =
      parseRequest (shapeFlatToolCall "a" "checkAvailability" "argtext") ∧
    parseRequest (parseRequest (shapeDeepWrapped "a" "checkAvailability" "argtext")) =
      parseRequest (shapeDeepWrapped "a" "checkAvailability" "argtext") :=
  C9_normalizer_idempotent_shape_agnostic "a" "checkAvailability" "argtext"
    (shapeWrappedBody "w" "x" "y") rfl

end Receptionist
